import Mathlib

/-!
# Verification of the Travis CI descriptor scanner

A shallow embedding of `src/lib/element/travis/travisScanner.ts`:
the dual-format decoder `tryAsYamlThenJson`, the field normalization
performed inside `travisScanner`, and the feasibility classifier
`usesUnsupportedFeatures`.

JavaScript values produced by the YAML/JSON decoders are modelled by the
recursive type `JsVal` (null, boolean, number, string, sequence, mapping).
JavaScript string primitives used by the source (`substring`, `indexOf`,
`startsWith`) are modelled with their ECMAScript clamping/swapping
semantics.  The two text parsers (`yaml.parse`, `JSON.parse`) are external
libraries and are abstracted as parameters of type
`String → Except String JsVal`; the control flow around them is embedded
faithfully.  Thrown exceptions are modelled by `Except String`.
-/

namespace TravisScan

/-- A generic decoded value, as produced by a YAML or JSON parser:
null, boolean, number, string, ordered sequence, or string-keyed mapping. -/
inductive JsVal where
  | vNull
  | vBool (b : Bool)
  | vNum (n : Int)
  | vStr (s : String)
  | vArr (elems : List JsVal)
  | vObj (fields : List (String × JsVal))

/-- JavaScript property access `o.k`: a present field of an object, `undefined`
(modelled as `none`) otherwise, including access on any non-object value. -/
def getField : JsVal → String → Option JsVal
  | .vObj fs, k => fs.lookup k
  | _, _ => none

/-- JavaScript truthiness of a possibly-`undefined` value: `undefined`, `null`,
`false`, `0`, and the empty string are falsy; everything else is truthy. -/
def truthy : Option JsVal → Bool
  | none => false
  | some .vNull => false
  | some (.vBool b) => b
  | some (.vNum n) => decide (n ≠ 0)
  | some (.vStr s) => decide (s ≠ "")
  | some (.vArr _) => true
  | some (.vObj _) => true

/-- ECMAScript `String.prototype.substring(a, b)`: both indices are clamped to
`[0, length]` and swapped when `a > b`; the slice `[lo, hi)` is returned. -/
def jsSubstring (s : String) (a b : Int) : String :=
  let n : Int := (s.length : Int)
  let a' := min (max a 0) n
  let b' := min (max b 0) n
  let lo := (min a' b').toNat
  let hi := (max a' b').toNat
  String.mk ((s.toList.take hi).drop lo)

/-- ECMAScript `String.prototype.indexOf` for a single character: the index of
its first occurrence, or `-1` when the character does not occur. -/
def jsIndexOfChar (s : String) (c : Char) : Int :=
  if c ∈ s.toList then (s.toList.findIdx (· = c) : Int) else -1

/-- ECMAScript `value.startsWith('"')`: the first character is a double
quote. -/
def jsStartsWithQuote (s : String) : Bool :=
  decide (s.toList.head? = some '"')

/-- The quote-stripping conditional of the `env` loop: when
`value.startsWith('"')`, replace `value` by
`value.substring(1, value.length - 1)`. -/
def codeQuoteStrip (value : String) : String :=
  if jsStartsWithQuote value then
    jsSubstring value 1 ((value.length : Int) - 1)
  else value

/-- The body of the `env` loop of `travisScanner` for one entry `e`:
`key = e.substring(0, e.indexOf("="))`, `value = e.substring(key.length + 1)`,
then the quote-stripping conditional. -/
def processEnvEntry (e : String) : String × String :=
  let key := jsSubstring e 0 (jsIndexOfChar e '=')
  let rawValue := jsSubstring e ((key.length : Int) + 1) ((e.length : Int))
  (key, codeQuoteStrip rawValue)

/-- JavaScript object-assignment `m[k] = v` on a string-keyed mapping kept as an
association list: an existing key is overwritten in place, a new key is
appended. -/
def jsInsert (m : List (String × String)) (k : String) (v : String) :
    List (String × String) :=
  if m.any (fun p => p.1 = k) then
    m.map (fun p => if p.1 = k then (k, v) else p)
  else m ++ [(k, v)]

/-- The iterable produced by `nativeObject.env || []` as used by
`for (const e of ...)`: a falsy or absent value yields no iterations, a string
iterates its characters, an array iterates its elements, and any other truthy
value raises a `TypeError` (it is not iterable). -/
def envEntries (v : Option JsVal) : Except String (List JsVal) :=
  if truthy v then
    match v with
    | some (.vStr s) => .ok (s.toList.map (fun c => JsVal.vStr (String.mk [c])))
    | some (.vArr xs) => .ok xs
    | _ => .error "nativeObject.env is not iterable"
  else .ok []

/-- The `env` loop of `travisScanner`: each entry must be a string (otherwise
`e.substring` raises a `TypeError`); each string entry is split and
quote-stripped by `processEnvEntry` and assigned into the mapping. -/
def buildEnv (entries : List JsVal) : Except String (List (String × String)) :=
  entries.foldlM
    (fun m e =>
      match e with
      | .vStr s =>
        let kv := processEnvEntry s
        .ok (jsInsert m kv.1 kv.2)
      | _ => .error "e.substring is not a function")
    []

mutual

/-- JavaScript string conversion of a value used as a computed object key
(`services[e] = \x7b\x7d`). -/
def toKeyString : JsVal → String
  | .vStr s => s
  | .vNum n => toString n
  | .vBool b => cond b "true" "false"
  | .vNull => "null"
  | .vObj _ => "[object Object]"
  | .vArr xs => keyStringList xs

/-- Comma-joined string conversion of the elements of an array key. -/
def keyStringList : List JsVal → String
  | [] => ""
  | [x] => toKeyString x
  | x :: xs => toKeyString x ++ "," ++ keyStringList xs

end

/-- One step of building the `services` mapping: since every value stored is
the empty object, the mapping is represented by its key list; a repeated key
leaves the list unchanged. -/
def insertServiceKey (acc : List String) (k : String) : List String :=
  if k ∈ acc then acc else acc ++ [k]

/-- The `services` block of `travisScanner`: a string value yields a one-entry
mapping keyed by the string; otherwise `nativeObject.services || []` is
iterated (`for (const e of ...)`), each element becoming an empty-object entry;
a truthy non-string non-array value raises a `TypeError`. -/
def buildServices (v : Option JsVal) : Except String (List String) :=
  match v with
  | some (.vStr s) => .ok [s]
  | _ =>
    if truthy v then
      match v with
      | some (.vArr xs) =>
        .ok ((xs.map toKeyString).foldl insertServiceKey [])
      | _ => .error "nativeObject.services is not iterable"
    else .ok []

/-- Modelled from the spec: `toStringArray` is imported from an external
package whose source is not in this repository; the specification describes
its effect as scalar-or-list coercion, "scalar → single-element sequence;
sequence → itself". -/
def toStringArray : JsVal → List JsVal
  | .vArr xs => xs
  | v => [v]

/-- The guarded coercion pattern of `travisScanner`,
`x ? toStringArray(x) : []`, applied to a possibly-absent field. -/
def coerceField : Option JsVal → List JsVal
  | some x => if truthy (some x) then toStringArray x else []
  | none => []

/-- Travis rules for building branches (`TravisBranchRules`). -/
structure TravisBranchRules where
  except : List JsVal
  only : List JsVal

/-- The `branches` block of `travisScanner`:
`nativeObject.branches ? \x7bonly: ..., except: ...\x7d : undefined`, the
sub-fields each built by the guarded coercion pattern. -/
def buildBranches (v : Option JsVal) : Option TravisBranchRules :=
  match v with
  | some b =>
    if truthy (some b) then
      some { only := coerceField (getField b "only")
             except := coerceField (getField b "except") }
    else none
  | none => none

/-- The normalized descriptor (`TravisCi`). -/
structure TravisCi where
  name : String
  projectName : String
  branches : Option TravisBranchRules
  language : Option JsVal
  scripts : List JsVal
  env : List (String × String)
  addons : Option JsVal
  beforeInstall : List JsVal
  afterSuccess : List JsVal
  services : List String
  referencedEnvironmentVariables : List String
  tags : List String
  nodeJs : List JsVal
  canEmulate : Option Bool

/-- The classifier `usesUnsupportedFeatures`: `!!travis.addons`. -/
def usesUnsupportedFeatures (travis : TravisCi) : Bool :=
  truthy travis.addons

/-- The body of the `try` block of `travisScanner` after decoding: build `env`,
`services` and `branches`, assemble the descriptor, then set
`canEmulate = !usesUnsupportedFeatures(travis)`.  A thrown `TypeError` from
either loop is the `Except.error` case. -/
def normalize (nativeObject : JsVal) (projectName : String) :
    Except String TravisCi :=
  match envEntries (getField nativeObject "env") with
  | .error m => .error m
  | .ok entries =>
    match buildEnv entries with
    | .error m => .error m
    | .ok env =>
      match buildServices (getField nativeObject "services") with
      | .error m => .error m
      | .ok services =>
        let travis : TravisCi :=
          { name := "travis"
            projectName := projectName
            branches := buildBranches (getField nativeObject "branches")
            language := getField nativeObject "language"
            scripts := coerceField (getField nativeObject "script")
            env := env
            addons := getField nativeObject "addons"
            beforeInstall := coerceField (getField nativeObject "before_install")
            afterSuccess := coerceField (getField nativeObject "after_success")
            services := services
            referencedEnvironmentVariables := []
            tags := ["travis"]
            nodeJs := coerceField (getField nativeObject "node_js")
            canEmulate := none }
        .ok { travis with canEmulate := some (!usesUnsupportedFeatures travis) }

/-- The decoder `tryAsYamlThenJson`, with the two external text parsers
abstracted: try
YAML; on any error try JSON on the same content; a JSON failure propagates. -/
def tryAsYamlThenJson (yamlParse jsonParse : String → Except String JsVal)
    (content : String) : Except String JsVal :=
  match yamlParse content with
  | .ok v => .ok v
  | .error _ => jsonParse content

/-- The diagnostic emitted by `logger.warn("Cannot parse YAML file: %s",
e.message)`. -/
def logWarn (m : String) : String := "Cannot parse YAML file: " ++ m

/-- The scanner `travisScanner`: the file content (or its absence,
`!travisYaml`) is the
`Option String` argument; the result pairs the returned value (`undefined`
being `none`) with the list of diagnostics logged during the call. -/
def travisScanner (yamlParse jsonParse : String → Except String JsVal)
    (projectName : String) (file : Option String) :
    Option TravisCi × List String :=
  match file with
  | none => (none, [])
  | some content =>
    match tryAsYamlThenJson yamlParse jsonParse content with
    | .error m => (none, [logWarn m])
    | .ok nativeObject =>
      match normalize nativeObject projectName with
      | .error m => (none, [logWarn m])
      | .ok travis => (some travis, [])

/-! ## Specification-side definitions

The following definitions restate normalization rules in the words of the
specification and of the claims, to be compared against the embedded code. -/

/-- The quote-stripping rule exactly as the claim words it: strip exactly one
leading and one trailing double-quote character when the value is wrapped in
such a pair; otherwise leave the value unchanged. -/
def specWrappedStrip (v : String) : String :=
  if 2 ≤ v.length ∧ v.toList.head? = some '"' ∧ v.toList.getLast? = some '"' then
    String.mk ((v.toList.drop 1).dropLast)
  else v

/-- The amended quote-stripping rule: whenever the value begins with a double
quote, its first and its last character are removed (for a value that is
exactly one double-quote character, nothing changes). -/
def specAmendedStrip (v : String) : String :=
  if v.toList.head? = some '"' then
    if v.length ≤ 1 then v else String.mk ((v.toList.drop 1).dropLast)
  else v

/-- One `KEY=VALUE` entry as the claim words it: split at the first `=` into
key and value, then apply the claimed (wrapped-pair) quote stripping. -/
def specEnvEntryClaim (e : String) : String × String :=
  (String.mk (e.toList.takeWhile (fun x => x ≠ '=')),
   specWrappedStrip (String.mk ((e.toList.dropWhile (fun x => x ≠ '=')).drop 1)))

/-- One `KEY=VALUE` entry under the amended quote stripping. -/
def specEnvEntryAmended (e : String) : String × String :=
  (String.mk (e.toList.takeWhile (fun x => x ≠ '=')),
   specAmendedStrip (String.mk ((e.toList.dropWhile (fun x => x ≠ '=')).drop 1)))

/-- The claimed `env` mapping: each entry split and wrapped-pair-stripped, the
results gathered into a key-to-value mapping. -/
def specEnvMapClaim (entries : List String) : List (String × String) :=
  entries.foldl
    (fun m e => jsInsert m (specEnvEntryClaim e).1 (specEnvEntryClaim e).2) []

/-- The amended `env` mapping. -/
def specEnvMapAmended (entries : List String) : List (String × String) :=
  entries.foldl
    (fun m e => jsInsert m (specEnvEntryAmended e).1 (specEnvEntryAmended e).2) []

/-- Scalar-or-list coercion as the amended claim words it: a list is kept
unchanged, an absent field gives the empty sequence, a truthy bare scalar
gives the single-element sequence, and a falsy bare scalar gives the empty
sequence. -/
def specCoerce : Option JsVal → List JsVal
  | none => []
  | some (.vArr xs) => xs
  | some v => if truthy (some v) then [v] else []

/-! ## Lemmas about the JavaScript string primitives -/

theorem toList_eq_data (s : String) : s.toList = s.data := rfl

theorem length_eq_toList (s : String) : s.length = s.toList.length := rfl

theorem mk_toList (s : String) : String.mk s.toList = s := rfl

theorem length_mk (l : List Char) : (String.mk l).length = l.length := rfl

theorem jsSubstring_spec (s : String) (a b : Int) :
    jsSubstring s a b =
      String.mk ((s.toList.take
          (max (min (max a 0) (s.length : Int))
               (min (max b 0) (s.length : Int))).toNat).drop
          (min (min (max a 0) (s.length : Int))
               (min (max b 0) (s.length : Int))).toNat) := rfl

theorem jsSubstring_zero_neg_one (s : String) : jsSubstring s 0 (-1) = "" := by
  rw [jsSubstring_spec]
  have h1 : (min (min (max (0 : Int) 0) (s.length : Int))
      (min (max (-1 : Int) 0) (s.length : Int))).toNat = 0 := by omega
  have h2 : (max (min (max (0 : Int) 0) (s.length : Int))
      (min (max (-1 : Int) 0) (s.length : Int))).toNat = 0 := by omega
  rw [h1, h2]
  rfl

theorem jsSubstring_zero_nat (s : String) (i : Nat) (h : i ≤ s.length) :
    jsSubstring s 0 (i : Int) = String.mk (s.toList.take i) := by
  rw [jsSubstring_spec]
  have h1 : (min (min (max (0 : Int) 0) (s.length : Int))
      (min (max (i : Int) 0) (s.length : Int))).toNat = 0 := by omega
  have h2 : (max (min (max (0 : Int) 0) (s.length : Int))
      (min (max (i : Int) 0) (s.length : Int))).toNat = i := by omega
  rw [h1, h2, List.drop_zero]

theorem jsSubstring_nat_length (s : String) (a : Nat) :
    jsSubstring s (a : Int) (s.length : Int) = String.mk (s.toList.drop a) := by
  rw [jsSubstring_spec]
  have h1 : (min (min (max (a : Int) 0) (s.length : Int))
      (min (max (s.length : Int) 0) (s.length : Int))).toNat = min a s.length := by
    omega
  have h2 : (max (min (max (a : Int) 0) (s.length : Int))
      (min (max (s.length : Int) 0) (s.length : Int))).toNat = s.length := by omega
  rw [h1, h2]
  have h3 : s.toList.take s.length = s.toList := by
    rw [length_eq_toList, List.take_length]
  rw [h3]
  rcases Nat.le_total a s.length with hle | hge
  · rw [Nat.min_eq_left hle]
  · rw [Nat.min_eq_right hge]
    have hlen : s.toList.length = s.length := (length_eq_toList s).symm
    rw [List.drop_eq_nil_of_le (by omega), List.drop_eq_nil_of_le (by omega)]

theorem jsSubstring_one_char (s : String) (h : s.length = 1) :
    jsSubstring s 1 ((s.length : Int) - 1) = s := by
  rw [jsSubstring_spec]
  have h1 : (min (min (max (1 : Int) 0) (s.length : Int))
      (min (max ((s.length : Int) - 1) 0) (s.length : Int))).toNat = 0 := by omega
  have h2 : (max (min (max (1 : Int) 0) (s.length : Int))
      (min (max ((s.length : Int) - 1) 0) (s.length : Int))).toNat = 1 := by omega
  rw [h1, h2, List.drop_zero]
  conv_rhs => rw [← mk_toList s]
  congr 1
  have hlen : s.toList.length = 1 := by rw [← length_eq_toList]; exact h
  rw [← hlen, List.take_length]

theorem jsSubstring_strip (s : String) (h : 2 ≤ s.length) :
    jsSubstring s 1 ((s.length : Int) - 1) =
      String.mk ((s.toList.drop 1).dropLast) := by
  rw [jsSubstring_spec]
  have h1 : (min (min (max (1 : Int) 0) (s.length : Int))
      (min (max ((s.length : Int) - 1) 0) (s.length : Int))).toNat = 1 := by omega
  have h2 : (max (min (max (1 : Int) 0) (s.length : Int))
      (min (max ((s.length : Int) - 1) 0) (s.length : Int))).toNat = s.length - 1 := by
    omega
  rw [h1, h2]
  congr 1
  have hlen : s.toList.length = s.length := (length_eq_toList s).symm
  rw [List.dropLast_eq_take, List.length_drop, List.take_drop]
  have harg : 1 + (s.toList.length - 1 - 1) = s.length - 1 := by omega
  rw [harg]

/-- The code's quote stripping coincides with the amended rule: drop the first
and last character whenever the value begins with a double quote and has at
least two characters; a bare double quote is unchanged. -/
theorem codeQuoteStrip_eq_specAmendedStrip (v : String) :
    codeQuoteStrip v = specAmendedStrip v := by
  unfold codeQuoteStrip specAmendedStrip jsStartsWithQuote
  by_cases hq : v.toList.head? = some '"'
  · rw [if_pos (by simpa using hq), if_pos hq]
    have hv : v.toList ≠ [] := by
      intro h0
      rw [h0] at hq
      simp at hq
    have hlen : 1 ≤ v.length := by
      rw [length_eq_toList]
      exact List.length_pos.mpr hv
    by_cases h1 : v.length ≤ 1
    · have hone : v.length = 1 := by omega
      rw [if_pos h1, jsSubstring_one_char v hone]
    · rw [if_neg h1, jsSubstring_strip v (by omega)]
  · rw [if_neg (by simpa using hq), if_neg hq]

/-- The first-`=`-prefix of a list of characters is its take at the index of
the first `=`. -/
theorem takeWhile_ne_eq_take (c : Char) (l : List Char) :
    l.takeWhile (fun x => x ≠ c) = l.take (l.findIdx (fun x => x = c)) := by
  induction l with
  | nil => rfl
  | cons a t ih =>
    by_cases h : a = c
    · subst h
      simp [List.findIdx_cons]
    · simp only [ne_eq, decide_not] at ih ⊢
      simp [List.findIdx_cons, h, List.takeWhile_cons, ih]

/-- The first-`=`-suffix of a list of characters is its drop at the index of
the first `=`. -/
theorem dropWhile_ne_eq_drop (c : Char) (l : List Char) :
    l.dropWhile (fun x => x ≠ c) = l.drop (l.findIdx (fun x => x = c)) := by
  induction l with
  | nil => rfl
  | cons a t ih =>
    by_cases h : a = c
    · subst h
      simp [List.findIdx_cons]
    · simp only [ne_eq, decide_not] at ih ⊢
      simp [List.findIdx_cons, h, List.dropWhile_cons, ih]

/-- For an entry containing `=`, the env-loop body computes: key is the part
before the first `=`, value the part after it, quote stripping applied. -/
theorem processEnvEntry_of_mem (e : String) (h : '=' ∈ e.toList) :
    processEnvEntry e =
      (String.mk (e.toList.takeWhile (fun x => x ≠ '=')),
       codeQuoteStrip (String.mk ((e.toList.dropWhile (fun x => x ≠ '=')).drop 1))) := by
  have hidx : jsIndexOfChar e '=' =
      ((e.toList.findIdx (fun x => x = '=') : Nat) : Int) := by
    unfold jsIndexOfChar
    rw [if_pos h]
  have hlt : e.toList.findIdx (fun x => x = '=') < e.toList.length :=
    List.findIdx_lt_length_of_exists ⟨'=', h, by simp⟩
  have hle : e.toList.findIdx (fun x => x = '=') ≤ e.length := by
    rw [length_eq_toList]
    omega
  simp only [processEnvEntry]
  rw [hidx, jsSubstring_zero_nat e _ hle]
  have hklen : (String.mk (e.toList.take (e.toList.findIdx (fun x => x = '=')))).length
      = e.toList.findIdx (fun x => x = '=') := by
    rw [length_mk, List.length_take]
    omega
  rw [hklen]
  have hcast : ((e.toList.findIdx (fun x => x = '=') : Nat) : Int) + 1
      = (((e.toList.findIdx (fun x => x = '=') + 1 : Nat)) : Int) := by push_cast; ring
  rw [hcast, jsSubstring_nat_length e _]
  rw [takeWhile_ne_eq_take, dropWhile_ne_eq_drop, List.drop_drop]

/-- For an entry containing no `=`, the env-loop body computes: empty key, and
the entry minus its first character, quote stripping applied. -/
theorem processEnvEntry_of_not_mem (e : String) (h : '=' ∉ e.toList) :
    processEnvEntry e = ("", codeQuoteStrip (String.mk (e.toList.drop 1))) := by
  have hidx : jsIndexOfChar e '=' = -1 := by
    unfold jsIndexOfChar
    rw [if_neg h]
  simp only [processEnvEntry]
  rw [hidx, jsSubstring_zero_neg_one]
  have hzero : (("" : String).length : Int) + 1 = ((1 : Nat) : Int) := by
    norm_num
  rw [hzero, jsSubstring_nat_length e 1]

/-! ## Lemmas about the env, services and field pipelines -/

/-- On a list of string entries the env loop never fails and folds the
per-entry body over the mapping. -/
theorem buildEnv_strings (ss : List String) :
    buildEnv (ss.map JsVal.vStr) =
      .ok (ss.foldl
        (fun m s => jsInsert m (processEnvEntry s).1 (processEnvEntry s).2) []) := by
  show (ss.map JsVal.vStr).foldlM _ [] = _
  generalize [] = acc
  induction ss generalizing acc with
  | nil => rfl
  | cons s rest ih =>
    simp only [List.map_cons, List.foldlM_cons, List.foldl_cons]
    exact ih _

/-- Membership in the accumulated services key list. -/
theorem mem_foldl_insertServiceKey (ss : List String) (acc : List String)
    (k : String) :
    k ∈ ss.foldl insertServiceKey acc ↔ k ∈ acc ∨ k ∈ ss := by
  induction ss generalizing acc with
  | nil => simp
  | cons x xs ih =>
    rw [List.foldl_cons, ih]
    unfold insertServiceKey
    by_cases hx : x ∈ acc
    · rw [if_pos hx]
      simp only [List.mem_cons]
      constructor
      · tauto
      · rintro (h | h | h) <;> first | tauto | exact Or.inl (h ▸ hx)
    · rw [if_neg hx]
      simp only [List.mem_append, List.mem_singleton, List.mem_cons]
      tauto

/-- Accumulating pairwise-distinct keys that avoid the accumulator appends
them in order. -/
theorem foldl_insertServiceKey_nodup (ss : List String) :
    ∀ acc : List String, (∀ x ∈ ss, x ∉ acc) → ss.Nodup →
      ss.foldl insertServiceKey acc = acc ++ ss := by
  induction ss with
  | nil => intro acc _ _; simp
  | cons x xs ih =>
    intro acc hacc hnd
    rw [List.foldl_cons]
    have hx : x ∉ acc := hacc x (List.mem_cons_self x xs)
    rw [show insertServiceKey acc x = acc ++ [x] from if_neg hx]
    rw [List.nodup_cons] at hnd
    rw [ih (acc ++ [x]) ?_ hnd.2]
    · simp
    · intro y hy
      simp only [List.mem_append, List.mem_singleton]
      rintro (h | h)
      · exact hacc y (List.mem_cons_of_mem x hy) h
      · exact hnd.1 (h ▸ hy)

/-- Converting string elements back to object keys is the identity. -/
theorem map_toKeyString_vStr (ss : List String) :
    (ss.map JsVal.vStr).map toKeyString = ss := by
  induction ss with
  | nil => rfl
  | cons s rest ih => simp [toKeyString, ih]

/-- What success of `normalize` pins down about the returned descriptor. -/
theorem normalize_ok_spec (o : JsVal) (pn : String) (t : TravisCi)
    (h : normalize o pn = .ok t) :
    (∃ entries, envEntries (getField o "env") = .ok entries ∧
        buildEnv entries = .ok t.env)
  ∧ buildServices (getField o "services") = .ok t.services
  ∧ t.name = "travis"
  ∧ t.projectName = pn
  ∧ t.branches = buildBranches (getField o "branches")
  ∧ t.language = getField o "language"
  ∧ t.scripts = coerceField (getField o "script")
  ∧ t.addons = getField o "addons"
  ∧ t.beforeInstall = coerceField (getField o "before_install")
  ∧ t.afterSuccess = coerceField (getField o "after_success")
  ∧ t.referencedEnvironmentVariables = []
  ∧ t.tags = ["travis"]
  ∧ t.nodeJs = coerceField (getField o "node_js")
  ∧ t.canEmulate = some (!truthy (getField o "addons")) := by
  unfold normalize at h
  split at h
  next m hE => exact absurd h (by simp)
  next entries hE =>
    split at h
    next m hB => exact absurd h (by simp)
    next env hB =>
      split at h
      next m hS => exact absurd h (by simp)
      next services hS =>
        simp only [Except.ok.injEq] at h
        subst h
        exact ⟨⟨entries, hE, hB⟩, hS, rfl, rfl, rfl, rfl, rfl, rfl, rfl, rfl,
          rfl, rfl, rfl, rfl⟩

/-- The code's guarded coercion coincides with the amended scalar-or-list
coercion. -/
theorem coerceField_eq_specCoerce (v : Option JsVal) :
    coerceField v = specCoerce v := by
  cases v with
  | none => rfl
  | some x => cases x <;> rfl

/-- An absent or falsy `env` value yields no entries. -/
theorem envEntries_falsy (v : Option JsVal) (h : truthy v = false) :
    envEntries v = .ok [] := by
  unfold envEntries
  rw [if_neg (by simp [h])]

/-- An array-valued `env` yields its elements. -/
theorem envEntries_arr (xs : List JsVal) :
    envEntries (some (.vArr xs)) = .ok xs := rfl

/-- A truthy `env` value that is neither a string nor an array raises a
`TypeError` in the `for...of` loop. -/
theorem envEntries_not_iterable (ev : JsVal) (ht : truthy (some ev) = true)
    (hs : ∀ s, ev ≠ .vStr s) (ha : ∀ xs, ev ≠ .vArr xs) :
    envEntries (some ev) = .error "nativeObject.env is not iterable" := by
  unfold envEntries
  rw [if_pos (by simp [ht])]
  cases ev with
  | vStr s => exact absurd rfl (hs s)
  | vArr xs => exact absurd rfl (ha xs)
  | vNull => simp [truthy] at ht
  | vBool b => rfl
  | vNum n => rfl
  | vObj fs => rfl

/-- A failing env loop makes the whole `try` body fail with the same
message. -/
theorem normalize_env_error (o : JsVal) (pn m : String)
    (h : envEntries (getField o "env") = .error m) :
    normalize o pn = .error m := by
  unfold normalize
  rw [h]

/-- For an entry containing `=`, the env-loop body agrees with the amended
per-entry rule. -/
theorem processEnvEntry_eq_amended (s : String) (h : '=' ∈ s.toList) :
    processEnvEntry s = specEnvEntryAmended s := by
  rw [processEnvEntry_of_mem s h, codeQuoteStrip_eq_specAmendedStrip]
  rfl

/-- The index of the separating `=` in a `KEY=VALUE` entry whose key contains
no `=`. -/
theorem findIdx_sep (kl vl : List Char) (hk : '=' ∉ kl) :
    (kl ++ '=' :: vl).findIdx (fun x => x = '=') = kl.length := by
  rw [List.findIdx_append]
  have h1 : kl.findIdx (fun x => x = '=') = kl.length :=
    List.findIdx_eq_length_of_false (by
      intro x hx
      simp only [decide_eq_false_iff_not]
      intro hc
      exact hk (hc ▸ hx))
  rw [h1]
  simp [List.findIdx_cons]

/-- The env-loop body on a well-split `KEY=VALUE` entry: the key part is the
key, and the value part is quote-stripped. -/
theorem processEnvEntry_sep (k v : String) (hk : '=' ∉ k.toList) :
    processEnvEntry (k ++ "=" ++ v) = (k, codeQuoteStrip v) := by
  have hdata : (k ++ "=" ++ v).toList = k.toList ++ '=' :: v.toList := by
    simp [toList_eq_data, String.data_append]
  have hmem : '=' ∈ (k ++ "=" ++ v).toList := by
    rw [hdata]
    simp
  rw [processEnvEntry_of_mem _ hmem]
  rw [hdata, takeWhile_ne_eq_take, dropWhile_ne_eq_drop, findIdx_sep _ _ hk]
  rw [List.take_left, List.drop_left]
  simp [mk_toList]

/-- The array case of the services block folds the element keys into the
mapping. -/
theorem buildServices_arr (xs : List JsVal) :
    buildServices (some (.vArr xs)) =
      .ok ((xs.map toKeyString).foldl insertServiceKey []) := rfl

/-! ## Claims -/

/-- C1 counterexample: with `addons: false` the `addons` key is present with a
non-absent value, yet `canEmulate` is `true`, because the classifier tests
truthiness (`!!travis.addons`), not presence. -/
theorem addons_falsy_counterexample :
    (normalize (JsVal.vObj [("addons", JsVal.vBool false)]) "p").map
        (fun t => (t.addons, t.canEmulate))
      = .ok (some (JsVal.vBool false), some true)
  ∧ (some true : Option Bool) ≠ some false :=
  ⟨rfl, by simp⟩

/-- C1 (amended): `usesUnsupportedFeatures` returns true iff `addons` is
present with a truthy value, `canEmulate` is its negation; in particular an
absent `addons` gives `canEmulate = true` and a truthy `addons` gives
`canEmulate = false`. -/
theorem canEmulate_amended (o : JsVal) (pn : String) (t : TravisCi)
    (h : normalize o pn = .ok t) :
    (usesUnsupportedFeatures t = true ↔
      ∃ x, t.addons = some x ∧ truthy (some x) = true)
  ∧ t.canEmulate = some (!usesUnsupportedFeatures t)
  ∧ (getField o "addons" = none → t.canEmulate = some true)
  ∧ (∀ x, getField o "addons" = some x → truthy (some x) = true →
      t.canEmulate = some false) := by
  obtain ⟨-, -, -, -, -, -, -, haddons, -, -, -, -, -, hcan⟩ :=
    normalize_ok_spec o pn t h
  refine ⟨?_, ?_, ?_, ?_⟩
  · unfold usesUnsupportedFeatures
    cases hx : t.addons with
    | none => simp [truthy]
    | some x => simp
  · rw [hcan]
    unfold usesUnsupportedFeatures
    rw [haddons]
  · intro hnone
    rw [hcan, hnone]
    rfl
  · intro x hx htr
    rw [hcan, hx, htr]
    rfl

/-- C1 witness: a truthy `addons` value forces `canEmulate = false`. -/
theorem canEmulate_amended_witness :
    ∃ t, normalize
        (JsVal.vObj [("addons", JsVal.vObj [("chrome", JsVal.vStr "stable")])])
        "proj" = .ok t
      ∧ t.canEmulate = some false :=
  ⟨_, rfl,
    (canEmulate_amended
      (JsVal.vObj [("addons", JsVal.vObj [("chrome", JsVal.vStr "stable")])])
      "proj" _ rfl).2.2.2 _ rfl rfl⟩

/-- C3 counterexample: `script: ""` supplies a bare scalar, but the normalized
`scripts` is the empty sequence instead of a single-element sequence, because
the guard `nativeObject.script ? ... : []` tests truthiness and the empty
string is falsy. -/
theorem scalar_empty_counterexample :
    (normalize (JsVal.vObj [("script", JsVal.vStr "")]) "p").map
        TravisCi.scripts = .ok []
  ∧ ([] : List JsVal) ≠ [JsVal.vStr ""] :=
  ⟨rfl, by simp⟩

/-- C3 (amended): each of the four scalar-or-list fields normalizes by the
truthiness-guarded coercion: a list is kept, an absent field gives the empty
sequence, a truthy scalar gives a single-element sequence, and a falsy scalar
gives the empty sequence. -/
theorem scalar_or_list_fields_amended (o : JsVal) (pn : String) (t : TravisCi)
    (h : normalize o pn = .ok t) :
    t.scripts = specCoerce (getField o "script")
  ∧ t.beforeInstall = specCoerce (getField o "before_install")
  ∧ t.afterSuccess = specCoerce (getField o "after_success")
  ∧ t.nodeJs = specCoerce (getField o "node_js") := by
  obtain ⟨-, -, -, -, -, -, hscripts, -, hbi, has, -, -, hnode, -⟩ :=
    normalize_ok_spec o pn t h
  exact ⟨hscripts.trans (coerceField_eq_specCoerce _),
    hbi.trans (coerceField_eq_specCoerce _),
    has.trans (coerceField_eq_specCoerce _),
    hnode.trans (coerceField_eq_specCoerce _)⟩

/-- C3 witness: a truthy scalar becomes a one-element sequence, a list is kept
unchanged, an absent field becomes the empty sequence. -/
theorem scalar_or_list_fields_amended_witness :
    ∃ t, normalize (JsVal.vObj
        [("script", JsVal.vStr "make test"),
         ("before_install", JsVal.vArr [JsVal.vStr "a", JsVal.vStr "b"]),
         ("node_js", JsVal.vNum 8)]) "proj" = .ok t
      ∧ (t.scripts = specCoerce (some (JsVal.vStr "make test"))
         ∧ t.beforeInstall =
             specCoerce (some (JsVal.vArr [JsVal.vStr "a", JsVal.vStr "b"]))
         ∧ t.afterSuccess = specCoerce none
         ∧ t.nodeJs = specCoerce (some (JsVal.vNum 8)))
      ∧ t.scripts = [JsVal.vStr "make test"]
      ∧ t.beforeInstall = [JsVal.vStr "a", JsVal.vStr "b"]
      ∧ t.afterSuccess = []
      ∧ t.nodeJs = [JsVal.vNum 8] :=
  ⟨_, rfl,
    scalar_or_list_fields_amended (JsVal.vObj
        [("script", JsVal.vStr "make test"),
         ("before_install", JsVal.vArr [JsVal.vStr "a", JsVal.vStr "b"]),
         ("node_js", JsVal.vNum 8)]) "proj" _ rfl,
    rfl, rfl, rfl, rfl⟩

/-- C4: the normalized services mapping is empty for an absent source field,
a one-entry mapping for a single string, and has one empty-object entry per
element for a sequence of strings. -/
theorem services_normalization (o : JsVal) (pn : String) (t : TravisCi)
    (h : normalize o pn = .ok t) :
    (getField o "services" = none → t.services = [])
  ∧ (∀ s, getField o "services" = some (.vStr s) → t.services = [s])
  ∧ (∀ ss : List String,
      getField o "services" = some (.vArr (ss.map JsVal.vStr)) →
      (∀ k, k ∈ t.services ↔ k ∈ ss) ∧ (ss.Nodup → t.services = ss)) := by
  obtain ⟨-, hS, -⟩ := normalize_ok_spec o pn t h
  refine ⟨?_, ?_, ?_⟩
  · intro hnone
    rw [hnone] at hS
    have hb : buildServices none = .ok [] := rfl
    rw [hb] at hS
    simp only [Except.ok.injEq] at hS
    exact hS.symm
  · intro s hs
    rw [hs] at hS
    have hb : buildServices (some (.vStr s)) = .ok [s] := rfl
    rw [hb] at hS
    simp only [Except.ok.injEq] at hS
    exact hS.symm
  · intro ss hss
    rw [hss] at hS
    rw [buildServices_arr, map_toKeyString_vStr] at hS
    simp only [Except.ok.injEq] at hS
    constructor
    · intro k
      rw [← hS]
      rw [mem_foldl_insertServiceKey]
      simp
    · intro hnd
      rw [← hS]
      have hfold := foldl_insertServiceKey_nodup ss [] (by simp) hnd
      simpa using hfold

/-- C4 witness: `services: ["redis","postgres"]` yields the two-key mapping. -/
theorem services_normalization_witness :
    ∃ t, normalize (JsVal.vObj
        [("services", JsVal.vArr [JsVal.vStr "redis", JsVal.vStr "postgres"])])
        "proj" = .ok t
      ∧ t.services = ["redis", "postgres"] :=
  ⟨_, rfl, by
    have h := (services_normalization (JsVal.vObj
        [("services", JsVal.vArr [JsVal.vStr "redis", JsVal.vStr "postgres"])])
        "proj" _ rfl).2.2 ["redis", "postgres"] rfl
    exact h.2 (by decide)⟩

/-- C5 counterexample: `branches: false` is a present stanza yet the normalized
field is absent, and `branches: only ""` coerces the falsy scalar to the empty
sequence rather than to a one-element sequence. -/
theorem branches_counterexample :
    (normalize (JsVal.vObj [("branches", JsVal.vBool false)]) "p").map
        TravisCi.branches = .ok none
  ∧ (∀ r : TravisBranchRules, (none : Option TravisBranchRules) ≠ some r)
  ∧ (normalize (JsVal.vObj
        [("branches", JsVal.vObj [("only", JsVal.vStr "")])]) "p").map
        TravisCi.branches = .ok (some { except := [], only := [] })
  ∧ ([] : List JsVal) ≠ [JsVal.vStr ""] :=
  ⟨rfl, fun r => by simp, rfl, by simp⟩

/-- C5 (amended): a truthy `branches` value yields an object whose `only` and
`except` are obtained by truthiness-guarded scalar-or-list coercion of the
sub-fields; an absent or falsy `branches` leaves the normalized field
absent. -/
theorem branches_normalization_amended (o : JsVal) (pn : String) (t : TravisCi)
    (h : normalize o pn = .ok t) :
    (getField o "branches" = none → t.branches = none)
  ∧ (∀ b, getField o "branches" = some b → truthy (some b) = false →
      t.branches = none)
  ∧ (∀ b, getField o "branches" = some b → truthy (some b) = true →
      t.branches = some { only := specCoerce (getField b "only"),
                          except := specCoerce (getField b "except") }) := by
  obtain ⟨-, -, -, -, hbr, -⟩ := normalize_ok_spec o pn t h
  refine ⟨?_, ?_, ?_⟩
  · intro hnone
    rw [hbr, hnone]
    rfl
  · intro b hb hf
    rw [hbr, hb]
    have hsome : buildBranches (some b) =
        if truthy (some b) = true then
          some { except := coerceField (getField b "except")
                 only := coerceField (getField b "only") }
        else none := rfl
    rw [hsome, if_neg (by simp [hf])]
  · intro b hb ht
    rw [hbr, hb]
    have hsome : buildBranches (some b) =
        if truthy (some b) = true then
          some { except := coerceField (getField b "except")
                 only := coerceField (getField b "only") }
        else none := rfl
    rw [hsome, if_pos ht]
    rw [coerceField_eq_specCoerce, coerceField_eq_specCoerce]

/-- C5 witness: a present branches stanza with a scalar `only` sub-field. -/
theorem branches_normalization_amended_witness :
    ∃ t, normalize (JsVal.vObj
        [("branches", JsVal.vObj [("only", JsVal.vStr "master")])])
        "proj" = .ok t
      ∧ t.branches = some { only := [JsVal.vStr "master"], except := [] } :=
  ⟨_, rfl, by
    have h := (branches_normalization_amended (JsVal.vObj
        [("branches", JsVal.vObj [("only", JsVal.vStr "master")])])
        "proj" _ rfl).2.2 _ rfl rfl
    exact h.trans rfl⟩

/-- C2 counterexample: for the entry `X="abc` the value part begins with a
double quote but is not wrapped in a pair, yet the code still removes the
first and last characters, storing `ab` where the claimed rule keeps
`"abc`. -/
theorem env_quote_counterexample :
    (normalize (JsVal.vObj [("env", JsVal.vArr [JsVal.vStr "X=\"abc"])])
        "p").map TravisCi.env = .ok [("X", "ab")]
  ∧ specEnvMapClaim ["X=\"abc"] = [("X", "\"abc")]
  ∧ ("ab" : String) ≠ "\"abc" :=
  ⟨rfl, rfl, by decide⟩

/-- C2 (amended): an absent `env` yields the empty mapping, and a list of
`KEY=VALUE` string entries is normalized by splitting each at the first `=`
and removing the value's first and last characters whenever it begins with a
double quote (stripping exactly the outer pair when wrapped). -/
theorem env_normalization_amended (o : JsVal) (pn : String) (t : TravisCi)
    (h : normalize o pn = .ok t) :
    (getField o "env" = none → t.env = [])
  ∧ (∀ ss : List String, getField o "env" = some (.vArr (ss.map JsVal.vStr)) →
      (∀ s ∈ ss, '=' ∈ s.toList) → t.env = specEnvMapAmended ss) := by
  obtain ⟨⟨entries, hE, hB⟩, -⟩ := normalize_ok_spec o pn t h
  constructor
  · intro hnone
    rw [hnone, envEntries_falsy none rfl] at hE
    simp only [Except.ok.injEq] at hE
    rw [← hE] at hB
    have hnil : buildEnv [] = .ok [] := rfl
    rw [hnil] at hB
    simp only [Except.ok.injEq] at hB
    exact hB.symm
  · intro ss hss hall
    rw [hss, envEntries_arr] at hE
    simp only [Except.ok.injEq] at hE
    rw [← hE, buildEnv_strings] at hB
    simp only [Except.ok.injEq] at hB
    rw [← hB]
    unfold specEnvMapAmended
    apply List.foldl_ext
    intro acc s hs
    rw [processEnvEntry_eq_amended s (hall s hs)]

/-- C2 witness: the two example entries of the claim. -/
theorem env_normalization_amended_witness :
    ∃ t, normalize (JsVal.vObj
        [("env", JsVal.vArr
          [JsVal.vStr "DB=postgres", JsVal.vStr "TOKEN=\"abc123\""])])
        "proj" = .ok t
      ∧ t.env = specEnvMapAmended ["DB=postgres", "TOKEN=\"abc123\""]
      ∧ specEnvMapAmended ["DB=postgres", "TOKEN=\"abc123\""]
          = [("DB", "postgres"), ("TOKEN", "abc123")] :=
  ⟨_, rfl,
    (env_normalization_amended (JsVal.vObj
        [("env", JsVal.vArr
          [JsVal.vStr "DB=postgres", JsVal.vStr "TOKEN=\"abc123\""])])
        "proj" _ rfl).2
      ["DB=postgres", "TOKEN=\"abc123\""] rfl (by decide),
    rfl⟩

/-- C8: an env value beginning with a double quote but not ending with one is
stored with both its first and its last character removed. -/
theorem env_unbalanced_quote (k v : String)
    (hk : '=' ∉ k.toList)
    (hq : v.toList.head? = some '"')
    (hl : v.toList.getLast? ≠ some '"') :
    processEnvEntry (k ++ "=" ++ v)
      = (k, String.mk ((v.toList.drop 1).dropLast))
  ∧ buildEnv [JsVal.vStr (k ++ "=" ++ v)]
      = .ok [(k, String.mk ((v.toList.drop 1).dropLast))] := by
  have hstrip : codeQuoteStrip v = String.mk ((v.toList.drop 1).dropLast) := by
    rw [codeQuoteStrip_eq_specAmendedStrip]
    unfold specAmendedStrip
    rw [if_pos hq]
    have hne : v.toList ≠ [] := by
      intro h0
      rw [h0] at hq
      simp at hq
    have hlen1 : 1 ≤ v.length := by
      rw [length_eq_toList]
      exact List.length_pos.mpr hne
    have hnot1 : ¬ v.length ≤ 1 := by
      intro hle
      have hlen : v.toList.length = 1 := by
        rw [← length_eq_toList]
        omega
      obtain ⟨c, hc⟩ := List.length_eq_one.mp hlen
      rw [hc] at hq hl
      simp at hq hl
      exact hl hq
    rw [if_neg hnot1]
  have hmain := processEnvEntry_sep k v hk
  rw [hstrip] at hmain
  refine ⟨hmain, ?_⟩
  have hb : buildEnv [JsVal.vStr (k ++ "=" ++ v)] =
      .ok (jsInsert [] (processEnvEntry (k ++ "=" ++ v)).1
        (processEnvEntry (k ++ "=" ++ v)).2) := rfl
  rw [hb, hmain]
  rfl

/-- C8 witness: the claim's example `X="abc` is stored as `ab`. -/
theorem env_unbalanced_quote_witness :
    processEnvEntry ("X" ++ "=" ++ "\"abc") = ("X", "ab")
  ∧ buildEnv [JsVal.vStr ("X" ++ "=" ++ "\"abc")] = .ok [("X", "ab")] := by
  have h := env_unbalanced_quote "X" "\"abc" (by decide) (by decide) (by decide)
  exact ⟨h.1.trans (by rfl), h.2.trans (by rfl)⟩

/-- C9 counterexample: for the no-`=` entry `""a` the code stores the empty
string, not the entry minus its first character (`"a`), because the remainder
begins with a double quote and is quote-stripped again. -/
theorem env_no_equals_counterexample :
    (normalize (JsVal.vObj [("env", JsVal.vArr [JsVal.vStr "\"\"a"])])
        "p").map TravisCi.env = .ok [("", "")]
  ∧ ("" : String) ≠ "\"a" :=
  ⟨rfl, by decide⟩

/-- C9 (amended): an entry without `=` neither fails nor is skipped: it is
stored under the empty key, its value the entry minus its first character,
further quote-stripped when that remainder begins with a double quote. -/
theorem env_no_equals_amended (e : String) (h : '=' ∉ e.toList) :
    processEnvEntry e = ("", specAmendedStrip (String.mk (e.toList.drop 1)))
  ∧ buildEnv [JsVal.vStr e]
      = .ok [("", specAmendedStrip (String.mk (e.toList.drop 1)))] := by
  have hmain := processEnvEntry_of_not_mem e h
  rw [codeQuoteStrip_eq_specAmendedStrip] at hmain
  refine ⟨hmain, ?_⟩
  have hb : buildEnv [JsVal.vStr e] =
      .ok (jsInsert [] (processEnvEntry e).1 (processEnvEntry e).2) := rfl
  rw [hb, hmain]
  rfl

/-- C9 witness: the claim's example `FOO` yields the empty key and `OO`. -/
theorem env_no_equals_amended_witness :
    processEnvEntry "FOO" = ("", "OO")
  ∧ buildEnv [JsVal.vStr "FOO"] = .ok [("", "OO")] := by
  have h := env_no_equals_amended "FOO" (by decide)
  exact ⟨h.1.trans (by rfl), h.2.trans (by rfl)⟩

/-- C6: the decoder first attempts YAML; exactly on a YAML error it attempts
JSON on the same content, returning whatever JSON parsing yields, so a JSON
success is returned unchanged and a JSON failure propagates to the caller. -/
theorem tryAsYamlThenJson_spec
    (yamlParse jsonParse : String → Except String JsVal) (c : String) :
    (∀ v, yamlParse c = .ok v →
      tryAsYamlThenJson yamlParse jsonParse c = .ok v)
  ∧ (∀ m, yamlParse c = .error m →
      tryAsYamlThenJson yamlParse jsonParse c = jsonParse c)
  ∧ (∀ m v, yamlParse c = .error m → jsonParse c = .ok v →
      tryAsYamlThenJson yamlParse jsonParse c = .ok v)
  ∧ (∀ m m', yamlParse c = .error m → jsonParse c = .error m' →
      tryAsYamlThenJson yamlParse jsonParse c = .error m') := by
  refine ⟨?_, ?_, ?_, ?_⟩
  · intro v hv
    unfold tryAsYamlThenJson
    rw [hv]
  · intro m hm
    unfold tryAsYamlThenJson
    rw [hm]
  · intro m v hm hj
    unfold tryAsYamlThenJson
    rw [hm]
    exact hj
  · intro m m' hm hj
    unfold tryAsYamlThenJson
    rw [hm]
    exact hj

/-- C6 witness: content the YAML parser rejects and the JSON parser accepts
decodes to the JSON parser's structure. -/
theorem tryAsYamlThenJson_spec_witness :
    tryAsYamlThenJson (fun _ => .error "unexpected token")
        (fun _ => .ok (JsVal.vArr [JsVal.vNum 1])) "[[1]]"
      = .ok (JsVal.vArr [JsVal.vNum 1]) :=
  (tryAsYamlThenJson_spec (fun _ => .error "unexpected token")
    (fun _ => .ok (JsVal.vArr [JsVal.vNum 1])) "[[1]]").2.2.1
    "unexpected token" _ rfl rfl

/-- On a present file the scanner runs the decode-then-normalize pipeline. -/
theorem travisScanner_some (yamlParse jsonParse : String → Except String JsVal)
    (pn c : String) :
    travisScanner yamlParse jsonParse pn (some c) =
      match tryAsYamlThenJson yamlParse jsonParse c with
      | .error m => (none, [logWarn m])
      | .ok nativeObject =>
        match normalize nativeObject pn with
        | .error m => (none, [logWarn m])
        | .ok travis => (some travis, []) := rfl

/-- C7: an absent descriptor file yields no result and no diagnostic; a decode
or normalize failure yields no result and exactly one diagnostic containing
the failure message; a successful normalization yields the full descriptor
and no diagnostic. -/
theorem travisScanner_spec
    (yamlParse jsonParse : String → Except String JsVal) (pn : String) :
    travisScanner yamlParse jsonParse pn none = (none, [])
  ∧ (∀ c m, tryAsYamlThenJson yamlParse jsonParse c = .error m →
      travisScanner yamlParse jsonParse pn (some c)
        = (none, ["Cannot parse YAML file: " ++ m]))
  ∧ (∀ c v m, tryAsYamlThenJson yamlParse jsonParse c = .ok v →
      normalize v pn = .error m →
      travisScanner yamlParse jsonParse pn (some c)
        = (none, ["Cannot parse YAML file: " ++ m]))
  ∧ (∀ c v t, tryAsYamlThenJson yamlParse jsonParse c = .ok v →
      normalize v pn = .ok t →
      travisScanner yamlParse jsonParse pn (some c) = (some t, [])) := by
  refine ⟨rfl, ?_, ?_, ?_⟩
  · intro c m hd
    rw [travisScanner_some, hd]
    rfl
  · intro c v m hd hn
    rw [travisScanner_some, hd]
    show (match normalize v pn with
          | .error m => ((none : Option TravisCi), [logWarn m])
          | .ok travis => (some travis, []))
        = ((none : Option TravisCi), ["Cannot parse YAML file: " ++ m])
    rw [hn]
    rfl
  · intro c v t hd hn
    rw [travisScanner_some, hd]
    show (match normalize v pn with
          | .error m => ((none : Option TravisCi), [logWarn m])
          | .ok travis => (some travis, []))
        = (some t, ([] : List String))
    rw [hn]

/-- C7 witness: the absent-file case logs nothing, and content failing both
parsers yields no result and the single diagnostic. -/
theorem travisScanner_spec_witness :
    travisScanner (fun _ => .error "bad yaml")
        (fun _ => .error "unexpected end of input") "proj" none = (none, [])
  ∧ travisScanner (fun _ => .error "bad yaml")
        (fun _ => .error "unexpected end of input") "proj" (some "][")
      = (none, ["Cannot parse YAML file: " ++ "unexpected end of input"]) :=
  ⟨(travisScanner_spec (fun _ => .error "bad yaml")
      (fun _ => .error "unexpected end of input") "proj").1,
   (travisScanner_spec (fun _ => .error "bad yaml")
      (fun _ => .error "unexpected end of input") "proj").2.1
     "][" "unexpected end of input" rfl⟩

/-- C10: when the decoded object's `env` is present, truthy, and neither a
string nor a sequence (hence not iterable), the scanner returns no descriptor
for the project, logging the iteration failure. -/
theorem env_not_iterable_scan (yamlParse jsonParse : String → Except String JsVal)
    (pn c : String) (v ev : JsVal)
    (hd : tryAsYamlThenJson yamlParse jsonParse c = .ok v)
    (he : getField v "env" = some ev)
    (ht : truthy (some ev) = true)
    (hs : ∀ s, ev ≠ .vStr s)
    (ha : ∀ xs, ev ≠ .vArr xs) :
    travisScanner yamlParse jsonParse pn (some c)
      = (none, [logWarn "nativeObject.env is not iterable"]) := by
  have hn : normalize v pn = .error "nativeObject.env is not iterable" :=
    normalize_env_error v pn _ (by
      rw [he]
      exact envEntries_not_iterable ev ht hs ha)
  rw [travisScanner_some, hd]
  show (match normalize v pn with
        | .error m => ((none : Option TravisCi), [logWarn m])
        | .ok travis => (some travis, []))
      = ((none : Option TravisCi), [logWarn "nativeObject.env is not iterable"])
  rw [hn]

/-- C10 witness: a mapping-valued `env` (as `env.global` configurations are)
makes the whole scan return no descriptor. -/
theorem env_not_iterable_scan_witness :
    travisScanner
        (fun _ => .ok (JsVal.vObj
          [("env", JsVal.vObj [("global", JsVal.vStr "X=1")])]))
        (fun _ => .error "bad json") "proj" (some "content")
      = (none, [logWarn "nativeObject.env is not iterable"]) :=
  env_not_iterable_scan
    (fun _ => .ok (JsVal.vObj
      [("env", JsVal.vObj [("global", JsVal.vStr "X=1")])]))
    (fun _ => .error "bad json") "proj" "content"
    (JsVal.vObj [("env", JsVal.vObj [("global", JsVal.vStr "X=1")])])
    (JsVal.vObj [("global", JsVal.vStr "X=1")])
    rfl rfl rfl
    (fun _ h => JsVal.noConfusion h) (fun _ h => JsVal.noConfusion h)

end TravisScan
